import Mathlib

/-!
Shallow embedding of the cosanostra Nostr relay core (Go sources:
`pkg/models/utils.go`, `pkg/relay/relay.go`, `pkg/relay/client.go`,
`pkg/storage` event store) together with proofs about the frozen claims.

Modelling conventions:
* Go strings are Lean `String`s (sequences of Unicode scalar values);
  byte-level output (the canonical serialization) is a `List Nat` of bytes.
* Go slices that the code only inspects through `len` and `range` are
  modelled as `Option (List _)` when the nil/empty distinction matters
  (a `nil` slice is `none`, a present-but-empty slice is `some []`;
  Go's `len` returns 0 for both) and as plain lists otherwise.
* The Go `map[string]*Event` of the event store is modelled as an
  association list keyed by the event id; Go's unspecified map iteration
  order becomes list order (the spec leaves query order unspecified).
* External library primitives (crypto/sha256, btcec schnorr) are not part
  of this repository; they enter as parameters bundled in `Crypto`, with
  the byte-length facts guaranteed by their Go types recorded as fields.
-/

namespace Cosanostra

/-- Event mirrors the `models.Event` struct.  The struct declaration file
is absent from the sources; the fields and their types are pinned by the
usage sites in `pkg/models/utils.go` (`ID`, `PubKey`, `CreatedAt`, `Kind`,
`Tags`, `Content`, `Sig`) and by the spec data model (§3). -/
structure Event where
  ID : String
  PubKey : String
  CreatedAt : Int
  Kind : Int
  Tags : List (List String)
  Content : String
  Sig : String
  deriving Repr, DecidableEq

/-- Filter mirrors the `models.Filter` struct.  The declaration file is
absent; `IDs`, `Authors`, `Kinds`, `Since`, `Until` are pinned by the
usage in `MatchesFilter` (slices inspected via `len`/`range`, integer
bounds compared with `>`/`<`).  `Limit` is modelled from the spec (§3):
no code under src reads it. -/
structure Filter where
  IDs : Option (List String)
  Authors : Option (List String)
  Kinds : Option (List Int)
  Since : Int
  Until : Int
  Limit : Int
  deriving Repr, DecidableEq

/-- sliceLen is Go's `len` on a nillable slice: 0 for a nil slice and for
a present-but-empty slice alike. -/
def sliceLen {α : Type} (o : Option (List α)) : Nat :=
  (o.getD []).length

/-- sliceElems is Go's `range` view of a nillable slice. -/
def sliceElems {α : Type} (o : Option (List α)) : List α :=
  o.getD []

/-- MatchesFilter is translated from `models.MatchesFilter`
(`pkg/models/utils.go` lines 141-194): each set-valued predicate is
guarded by `len(...) > 0`, the membership loop computes list membership,
and the time bounds are guarded by `> 0` and reject with `<` / `>`. -/
def MatchesFilter (event : Event) (filter : Filter) : Bool :=
  if 0 < sliceLen filter.IDs ∧ event.ID ∉ sliceElems filter.IDs then
    false
  else if 0 < sliceLen filter.Authors ∧ event.PubKey ∉ sliceElems filter.Authors then
    false
  else if 0 < sliceLen filter.Kinds ∧ event.Kind ∉ sliceElems filter.Kinds then
    false
  else if 0 < filter.Since ∧ event.CreatedAt < filter.Since then
    false
  else if 0 < filter.Until ∧ filter.Until < event.CreatedAt then
    false
  else
    true

/-- hexChar is the lowercase hex digit table of `encoding/hex`
(`const hextable = "0123456789abcdef"`), written arithmetically: digit
values 0-9 map to the ASCII digits and 10-15 to lowercase a-f (indices
beyond the table cannot occur for real nibbles and default to zero). -/
def hexChar (n : Nat) : Char :=
  if n < 10 then Char.ofNat (48 + n)
  else if n < 16 then Char.ofNat (87 + n)
  else '0'

/-- hexEncodeCh is `hex.EncodeToString` over a byte list: two lowercase
hex digits per byte. -/
def hexEncodeCh : List Nat → List Char
  | [] => []
  | b :: bs => hexChar (b / 16) :: hexChar (b % 16) :: hexEncodeCh bs

/-- hexEncodeStr wraps `hexEncodeCh` into a Go string. -/
def hexEncodeStr (bs : List Nat) : String :=
  String.mk (hexEncodeCh bs)

/-- hexDigitVal is the per-character table of `encoding/hex` decoding:
`0`-`9`, `a`-`f` and `A`-`F` are accepted, anything else is an error. -/
def hexDigitVal (c : Char) : Option Nat :=
  if '0' ≤ c ∧ c ≤ '9' then some (c.toNat - 48)
  else if 'a' ≤ c ∧ c ≤ 'f' then some (c.toNat - 87)
  else if 'A' ≤ c ∧ c ≤ 'F' then some (c.toNat - 55)
  else none

/-- hexDecodeCh is `hex.DecodeString` over a character list: bytes are
decoded pairwise, an odd length or a non-hex character is an error. -/
def hexDecodeCh : List Char → Option (List Nat)
  | [] => some []
  | [_] => none
  | c1 :: c2 :: rest =>
    match hexDigitVal c1, hexDigitVal c2, hexDecodeCh rest with
    | some hi, some lo, some bs => some ((16 * hi + lo) :: bs)
    | _, _, _ => none

/-- hexDecodeStr wraps `hexDecodeCh` for Go strings. -/
def hexDecodeStr (s : String) : Option (List Nat) :=
  hexDecodeCh s.data

/-- utf8Encode gives the UTF-8 bytes of a Unicode scalar value, as Go
emits them for code points the JSON encoder leaves unescaped. -/
def utf8Encode (n : Nat) : List Nat :=
  if n < 0x80 then [n]
  else if n < 0x800 then
    [0xC0 + n / 64, 0x80 + n % 64]
  else if n < 0x10000 then
    [0xE0 + n / 4096, 0x80 + n / 64 % 64, 0x80 + n % 64]
  else
    [0xF0 + n / 262144, 0x80 + n / 4096 % 64, 0x80 + n / 64 % 64, 0x80 + n % 64]

/-- goEscapeChar is the per-code-point behaviour of Go `encoding/json`
string encoding with `SetEscapeHTML(false)` (the `appendString` loop of
the standard library, as called from `SerializeEvent`):
ASCII bytes outside `safeSet` get short escapes for backslash, quote,
`\b`, `\f`, `\n`, `\r`, `\t` and a lowercase `\u00XX` escape for the
remaining control bytes; U+2028 and U+2029 are escaped unconditionally;
every other code point is emitted as raw UTF-8.  The input string is
valid UTF-8 (it comes out of `json.Unmarshal`), so the byte loop of the
Go encoder coincides with this per-scalar-value loop. -/
def goEscapeChar (c : Char) : List Nat :=
  let n := c.toNat
  if n < 0x80 then
    if 0x20 ≤ n ∧ n ≠ 0x22 ∧ n ≠ 0x5C then [n]
    else if n = 0x22 ∨ n = 0x5C then [0x5C, n]
    else if n = 0x08 then [0x5C, 0x62]
    else if n = 0x0C then [0x5C, 0x66]
    else if n = 0x0A then [0x5C, 0x6E]
    else if n = 0x0D then [0x5C, 0x72]
    else if n = 0x09 then [0x5C, 0x74]
    else [0x5C, 0x75, 0x30, 0x30, (hexChar (n / 16)).toNat, (hexChar (n % 16)).toNat]
  else if n = 0x2028 ∨ n = 0x2029 then
    [0x5C, 0x75, 0x32, 0x30, 0x32, (hexChar (n % 16)).toNat]
  else
    utf8Encode n

/-- goEncodeString is the Go JSON encoding of a string value: a quoted
run of `goEscapeChar` expansions. -/
def goEncodeString (s : String) : List Nat :=
  0x22 :: (s.data.flatMap goEscapeChar) ++ [0x22]

/-- jsonInt is Go's JSON encoding of an integer: shortest decimal form
with a leading minus sign for negatives (Lean's `toString` on `Int`
produces the same characters). -/
def jsonInt (i : Int) : List Nat :=
  (toString i).data.map Char.toNat

/-- jsonStringArray encodes a `[]string` value the way Go does for a
non-nil slice: `[`, comma-separated encoded strings, `]`. -/
def jsonStringArray (l : List String) : List Nat :=
  0x5B :: List.intercalate [0x2C] (l.map goEncodeString) ++ [0x5D]

/-- jsonTags encodes the `[][]string` tags value for a non-nil outer
slice (the nil-slice/`null` case is not needed by any claim). -/
def jsonTags (tags : List (List String)) : List Nat :=
  0x5B :: List.intercalate [0x2C] (tags.map jsonStringArray) ++ [0x5D]

/-- escapeContentField is translated from `models.escapeContentField`
(`pkg/models/utils.go` lines 133-138): despite its documentation listing
seven required short escapes, the function is the identity and defers
entirely to the default encoder. -/
def escapeContentField (content : String) : String :=
  content

/-- SerializeEvent is translated from `models.SerializeEvent`
(`pkg/models/utils.go` lines 90-122): the JSON array
`[0,pubkey,created_at,kind,tags,content]` encoded by `json.Encoder` with
`SetEscapeHTML(false)`, with the trailing newline stripped.  The Go
error path (encoder failure) is unreachable for this value shape, so the
model is total. -/
def SerializeEvent (event : Event) : List Nat :=
  [0x5B, 0x30, 0x2C]
    ++ goEncodeString event.PubKey ++ [0x2C]
    ++ jsonInt event.CreatedAt ++ [0x2C]
    ++ jsonInt event.Kind ++ [0x2C]
    ++ jsonTags event.Tags ++ [0x2C]
    ++ goEncodeString (escapeContentField event.Content)
    ++ [0x5D]

/-- nip01EscapeChar. Modelled from the spec: §4.1's required minimal
NIP-01 escaping, which no single function of the source implements
(`escapeContentField` delegates to the default encoder).  Only `\b`,
`\t`, `\n`, `\f`, `\r`, `\"`, `\\` are short-escaped, the remaining
controls in 0x00-0x1F become `\u00XX`, and every other code point,
non-ASCII included, is emitted as raw UTF-8 bytes. -/
def nip01EscapeChar (c : Char) : List Nat :=
  let n := c.toNat
  if n = 0x22 ∨ n = 0x5C then [0x5C, n]
  else if n = 0x08 then [0x5C, 0x62]
  else if n = 0x0C then [0x5C, 0x66]
  else if n = 0x0A then [0x5C, 0x6E]
  else if n = 0x0D then [0x5C, 0x72]
  else if n = 0x09 then [0x5C, 0x74]
  else if n < 0x20 then [0x5C, 0x75, 0x30, 0x30, (hexChar (n / 16)).toNat, (hexChar (n % 16)).toNat]
  else utf8Encode n

/-- nip01EncodeString. Modelled from the spec: a JSON string under the
minimal escaping of §4.1. -/
def nip01EncodeString (s : String) : List Nat :=
  0x22 :: (s.data.flatMap nip01EscapeChar) ++ [0x22]

/-- nip01TagsArray. Modelled from the spec: the tags value as a JSON
array of arrays of minimally escaped strings, input order preserved. -/
def nip01TagsArray (tags : List (List String)) : List Nat :=
  0x5B :: List.intercalate [0x2C]
    (tags.map (fun t => 0x5B :: List.intercalate [0x2C] (t.map nip01EncodeString) ++ [0x5D])) ++ [0x5D]

/-- nip01SerializeEvent. Modelled from the spec: the canonical
serialization of §4.1 with minimal NIP-01 string escaping in place of
the default encoder's escaping. -/
def nip01SerializeEvent (event : Event) : List Nat :=
  [0x5B, 0x30, 0x2C]
    ++ nip01EncodeString event.PubKey ++ [0x2C]
    ++ jsonInt event.CreatedAt ++ [0x2C]
    ++ jsonInt event.Kind ++ [0x2C]
    ++ nip01TagsArray event.Tags ++ [0x2C]
    ++ nip01EncodeString event.Content
    ++ [0x5D]

/-- Crypto bundles the external primitives used by `ValidateEvent`:
`crypto/sha256.Sum256`, `schnorr.ParsePubKey`, `schnorr.ParseSignature`
and `Signature.Verify` from btcec.  They are third-party code, not part
of this repository, so they are parameters of the embedding; the fields
`sha256_len` and `sha256_bytes` record the Go type `[32]byte` of a
digest.  Parsed key and signature objects are determined by their input
bytes, so parsing is modelled as a success predicate and verification as
a predicate on the raw signature, message and key bytes. -/
structure Crypto where
  sha256 : List Nat → List Nat
  sha256_len : ∀ bs, (sha256 bs).length = 32
  sha256_bytes : ∀ bs, ∀ b ∈ sha256 bs, b < 256
  parsePubKey : List Nat → Bool
  parseSig : List Nat → Bool
  verify : List Nat → List Nat → List Nat → Bool

/-- ValidateEvent is translated from `models.ValidateEvent`
(`pkg/models/utils.go` lines 14-87): serialize, hash, compare the
lowercase hex digest to `event.ID` by string equality, then hex-decode
pubkey and signature, check the 32-byte pubkey length, parse both,
hex-decode `event.ID` into the message bytes and verify.  Every error
path returns `false`, mirroring the Go early returns in source order. -/
def ValidateEvent (C : Crypto) (event : Event) : Bool :=
  let serialized := SerializeEvent event
  let computedID := hexEncodeStr (C.sha256 serialized)
  if computedID = event.ID then
    match hexDecodeStr event.PubKey with
    | none => false
    | some pubKeyBytes =>
      match hexDecodeStr event.Sig with
      | none => false
      | some sigBytes =>
        if pubKeyBytes.length = 32 then
          if C.parsePubKey pubKeyBytes then
            if C.parseSig sigBytes then
              match hexDecodeStr event.ID with
              | none => false
              | some messageHashBytes => C.verify sigBytes messageHashBytes pubKeyBytes
            else false
          else false
        else false
  else false

/-- EventStore mirrors `storage.EventStore`: the `map[string]*Event`
keyed by event id is an association list; the mutex disappears in this
sequential model (the spec's concurrency discipline is out of scope of
the claims settled here). -/
structure EventStore where
  events : List (String × Event)
  deriving Repr, DecidableEq

/-- NewEventStore mirrors `storage.NewEventStore`. -/
def NewEventStore : EventStore :=
  ⟨[]⟩

/-- lookupEvent is the Go map read `store.events[event.ID]`. -/
def lookupEvent (store : EventStore) (id : String) : Option Event :=
  (store.events.find? (fun p => p.1 == id)).map Prod.snd

/-- EventStore.Add is translated from `storage.EventStore.Add`
(src/unnamed/part_003 lines 23-34): return the untouched store and
`false` when an event with the same id exists, otherwise insert and
return `true`. -/
def EventStore.Add (store : EventStore) (event : Event) : EventStore × Bool :=
  match lookupEvent store event.ID with
  | some _ => (store, false)
  | none => (⟨(event.ID, event) :: store.events⟩, true)

/-- EventStore.Query is translated from `storage.EventStore.Query`
(src/unnamed/part_003 lines 37-50): every stored event matching the
filter is collected; map iteration order becomes list order. -/
def EventStore.Query (store : EventStore) (filter : Filter) : List Event :=
  (store.events.map Prod.snd).filter (fun event => MatchesFilter event filter)

/-- EventStore.GetByID is translated from `storage.EventStore.GetByID`. -/
def EventStore.GetByID (store : EventStore) (id : String) : Option Event :=
  lookupEvent store id

/-- Frame is an outbound NIP-01 frame written by the REQ handler. -/
inductive Frame where
  | event (sid : String) (e : Event)
  | eose (sid : String)
  deriving Repr, DecidableEq

/-- Frame.isEose recognizes an EOSE frame. -/
def Frame.isEose : Frame → Bool
  | .eose _ => true
  | .event _ _ => false

/-- Action is an observable effect of the EVENT handler: a broadcast to
matching subscriptions via `Relay.BroadcastEvent`, or an `OK` frame sent
back to the submitting client. -/
inductive Action where
  | broadcast (e : Event)
  | okFrame (id : String)
  deriving Repr, DecidableEq

/-- RawJson is an element of the incoming `[]json.RawMessage` array as
the handlers see it: a value that unmarshals as a JSON string, one that
unmarshals as a filter object, one that unmarshals as an event object,
or anything else (which makes the corresponding `json.Unmarshal` fail). -/
inductive RawJson where
  | str (s : String)
  | filt (f : Filter)
  | ev (e : Event)
  | other

/-- parseSubID is `json.Unmarshal` of a raw element into a Go string. -/
def parseSubID : RawJson → Except String String
  | .str s => .ok s
  | _ => .error "invalid subscription ID"

/-- parseFilter is `json.Unmarshal` of a raw element into a
`models.Filter`. -/
def parseFilter : RawJson → Except String Filter
  | .filt f => .ok f
  | _ => .error "invalid filter"

/-- parseEvent is `json.Unmarshal` of a raw element into a
`models.Event`. -/
def parseEvent : RawJson → Except String Event
  | .ev e => .ok e
  | _ => .error "invalid event data"

/-- parseFilters is the filter-parsing loop of `handleReqMessage`
(indices 2 onward), which completes before any event is written. -/
def parseFilters : List RawJson → Except String (List Filter)
  | [] => .ok []
  | r :: rs =>
    match parseFilter r, parseFilters rs with
    | .ok f, .ok fs => .ok (f :: fs)
    | .error msg, _ => .error msg
    | _, .error msg => .error msg

/-- SubMap is a client's subscription registry
(`Client.subscriptions`), an association list from subscription id to
the subscription's filters. -/
abbrev SubMap : Type := List (String × List Filter)

/-- RemoveSubscription mirrors `Client.RemoveSubscription` (map delete). -/
def RemoveSubscription (subs : SubMap) (id : String) : SubMap :=
  List.filter (fun p => p.1 ≠ id) subs

/-- AddSubscription mirrors `Client.AddSubscription` (map insert). -/
def AddSubscription (subs : SubMap) (id : String) (filters : List Filter) : SubMap :=
  (id, filters) :: RemoveSubscription subs id

/-- reqScanFrames is the historical scan of `handleReqMessage`
(`pkg/relay/relay.go` lines 204-216): for each filter in order, every
event of `Query` is written as an `EVENT` frame for the subscription.
No limit is consulted anywhere in the loop. -/
def reqScanFrames (store : EventStore) (sid : String) (filters : List Filter) : List Frame :=
  filters.flatMap (fun f => (store.Query f).map (fun e => Frame.event sid e))

/-- handleReqMessage is translated from `Relay.handleReqMessage`
(`pkg/relay/relay.go` lines 176-229): reject short messages, parse the
subscription id, cancel any previous subscription with that id, parse
all filters, install the subscription, write the historical scan frames
and finally a single `EOSE` frame.  The updated registry is returned
even on error paths that follow the removal. -/
def handleReqMessage (subs : SubMap) (store : EventStore) (rawMessage : List RawJson) :
    SubMap × Except String (List Frame) :=
  if rawMessage.length < 3 then (subs, .error "invalid REQ message")
  else
    match parseSubID (rawMessage.getD 1 .other) with
    | .error msg => (subs, .error msg)
    | .ok subscriptionID =>
      match parseFilters (rawMessage.drop 2) with
      | .error msg => (RemoveSubscription subs subscriptionID, .error msg)
      | .ok filters =>
        (AddSubscription (RemoveSubscription subs subscriptionID) subscriptionID filters,
         .ok (reqScanFrames store subscriptionID filters ++ [Frame.eose subscriptionID]))

/-- handleEventMessage is translated from `Relay.handleEventMessage`
(`pkg/relay/relay.go` lines 141-173): reject short messages, parse the
event, validate it (error on failure), add it to the store; only when
the add inserted does the relay broadcast and send `OK`; a duplicate
produces no action at all. -/
def handleEventMessage (C : Crypto) (store : EventStore) (rawMessage : List RawJson) :
    Except String (EventStore × List Action) :=
  if rawMessage.length < 2 then .error "invalid EVENT message"
  else
    match parseEvent (rawMessage.getD 1 .other) with
    | .error msg => .error msg
    | .ok event =>
      if ValidateEvent C event then
        match store.Add event with
        | (store1, true) => .ok (store1, [.broadcast event, .okFrame event.ID])
        | (store1, false) => .ok (store1, [])
      else .error "invalid event: ID or signature verification failed"

/-- CW is a concrete instantiation of the external crypto primitives,
used only to evaluate the validator theorems on closed inputs. -/
def CW : Crypto where
  sha256 := fun _ => List.replicate 32 0
  sha256_len := fun _ => by simp
  sha256_bytes := fun _ b hb => by
    rw [List.eq_of_mem_replicate hb]
    omega
  parsePubKey := fun _ => true
  parseSig := fun _ => true
  verify := fun _ _ _ => true

/-- zeros64 is sixty-four ASCII zero characters, the lowercase hex of a
32-byte all-zero digest. -/
def zeros64 : String :=
  String.mk (List.replicate 64 '0')

/-- EW is a concrete event that `ValidateEvent CW` accepts. -/
def EW : Event :=
  { ID := zeros64, PubKey := zeros64, CreatedAt := 0, Kind := 1,
    Tags := [], Content := "", Sig := zeros64 }

/-- STW is a store already holding `EW`. -/
def STW : EventStore :=
  ⟨[(EW.ID, EW)]⟩

/-- E0 is a small concrete event for filter counterexamples. -/
def E0 : Event :=
  { ID := "a", PubKey := "b", CreatedAt := 1, Kind := 0,
    Tags := [], Content := "", Sig := "" }

/-- FEmptyIDs is a filter whose `ids` predicate is present but empty. -/
def FEmptyIDs : Filter :=
  { IDs := some [], Authors := none, Kinds := none,
    Since := 0, Until := 0, Limit := 0 }

/-- E1 is a concrete stored event for the REQ scan fixtures. -/
def E1 : Event :=
  { ID := "e1", PubKey := "p1", CreatedAt := 10, Kind := 1,
    Tags := [], Content := "a", Sig := "s" }

/-- E2 is a second concrete stored event with a distinct id. -/
def E2 : Event :=
  { ID := "e2", PubKey := "p2", CreatedAt := 11, Kind := 1,
    Tags := [], Content := "b", Sig := "s" }

/-- FAll is a filter with no predicates and `limit = 1`. -/
def FAll : Filter :=
  { IDs := none, Authors := none, Kinds := none,
    Since := 0, Until := 0, Limit := 1 }

/-- ST2 is a store holding the two events `E1` and `E2`. -/
def ST2 : EventStore :=
  ⟨[("e1", E1), ("e2", E2)]⟩

/-- RAW2 is the raw frame `["REQ","s1",FAll]`. -/
def RAW2 : List RawJson :=
  [RawJson.str "REQ", RawJson.str "s1", RawJson.filt FAll]

/-- eventU2028 is an event whose content is the single code point U+2028
(LINE SEPARATOR). -/
def eventU2028 : Event :=
  { ID := "", PubKey := "", CreatedAt := 1, Kind := 1,
    Tags := [], Content := String.mk [Char.ofNat 0x2028], Sig := "" }

/-- EA is an event whose id contains the uppercase hex digit A. -/
def EA : Event :=
  { ID := "A", PubKey := "", CreatedAt := 0, Kind := 0,
    Tags := [], Content := "", Sig := "" }

theorem hexDigitVal_hexChar {k : Nat} (hk : k < 16) :
    hexDigitVal (hexChar k) = some k := by
  interval_cases k <;> rfl

theorem hexChar_not_upper (k : Nat) : ¬ ('A' ≤ hexChar k ∧ hexChar k ≤ 'F') := by
  by_cases hk : k < 16
  · interval_cases k <;> decide
  · have h10 : ¬ k < 10 := by omega
    simp only [hexChar, if_neg h10, if_neg hk]
    decide

theorem hexEncodeCh_chars {bs : List Nat} {c : Char} (hc : c ∈ hexEncodeCh bs) :
    ∃ k, c = hexChar k := by
  induction bs with
  | nil => simp [hexEncodeCh] at hc
  | cons b bs ih =>
    simp only [hexEncodeCh, List.mem_cons] at hc
    rcases hc with h | h | h
    · exact ⟨b / 16, h⟩
    · exact ⟨b % 16, h⟩
    · exact ih h

theorem hexDecodeCh_hexEncodeCh {bs : List Nat} (hbs : ∀ b ∈ bs, b < 256) :
    hexDecodeCh (hexEncodeCh bs) = some bs := by
  induction bs with
  | nil => rfl
  | cons b bs ih =>
    have hb : b < 256 := hbs b (List.mem_cons_self _ _)
    have hhi : b / 16 < 16 := Nat.div_lt_of_lt_mul (by omega)
    have hlo : b % 16 < 16 := Nat.mod_lt _ (by omega)
    have ihbs := ih (fun x hx => hbs x (List.mem_cons_of_mem _ hx))
    have hsum : 16 * (b / 16) + b % 16 = b := by omega
    simp only [hexEncodeCh, hexDecodeCh, hexDigitVal_hexChar hhi,
      hexDigitVal_hexChar hlo, ihbs, hsum]

theorem hexEncodeCh_length (bs : List Nat) :
    (hexEncodeCh bs).length = 2 * bs.length := by
  induction bs with
  | nil => rfl
  | cons b bs ih => simp [hexEncodeCh, ih]; ring

/-- C1: on the event whose content is the single code point U+2028, the
canonical serialization produced by `SerializeEvent` differs from the
NIP-01 minimally escaped serialization: the default encoder escapes
U+2028 as the six ASCII bytes 5C 75 32 30 32 38 (a backslash-u escape),
while NIP-01 requires the three raw UTF-8 bytes E2 80 A8. -/
theorem serializeEvent_escapes_u2028 :
    SerializeEvent eventU2028 ≠ nip01SerializeEvent eventU2028 ∧
    goEscapeChar (Char.ofNat 0x2028) = [0x5C, 0x75, 0x32, 0x30, 0x32, 0x38] ∧
    nip01EscapeChar (Char.ofNat 0x2028) = [0xE2, 0x80, 0xA8] :=
  ⟨by decide, by decide, by decide⟩

/-- C3 counterexample: the filter `FEmptyIDs` has a present but empty
`ids` set, yet `MatchesFilter` reports a match, because the `len > 0`
guard treats an empty present set exactly like an absent one; the claim
says such a filter matches nothing. -/
theorem matchesFilter_present_empty_matches :
    MatchesFilter E0 FEmptyIDs = true := by
  decide

/-- C3 amended: a present but empty set-valued predicate (ids, authors
or kinds) is ignored rather than matching nothing: `MatchesFilter`
treats it exactly like an absent predicate. -/
theorem matchesFilter_empty_set_as_absent (e : Event) (f : Filter) :
    MatchesFilter e { f with IDs := some [] } = MatchesFilter e { f with IDs := none } ∧
    MatchesFilter e { f with Authors := some [] } = MatchesFilter e { f with Authors := none } ∧
    MatchesFilter e { f with Kinds := some [] } = MatchesFilter e { f with Kinds := none } :=
  ⟨rfl, rfl, rfl⟩

/-- C4 counterexample: a REQ whose single filter carries `limit = 1`
against a store holding two matching events makes the handler emit two
EVENT frames before EOSE; the claim says at most one. -/
theorem reqHandler_emits_beyond_limit :
    FAll.Limit = 1 ∧
    (handleReqMessage [] ST2 RAW2).2 =
      Except.ok [Frame.event "s1" E1, Frame.event "s1" E2, Frame.eose "s1"] :=
  ⟨rfl, rfl⟩

/-- C4 amended: the initial historical scan of the REQ handler is
uncapped: the `limit` field of the filters has no effect whatsoever on
the frames emitted (each filter contributes every matching stored
event), and absence of a limit likewise means no cap. -/
theorem reqScan_limit_invariant (store : EventStore) (sid : String)
    (filters : List Filter) (n : Int) :
    reqScanFrames store sid (filters.map (fun f => { f with Limit := n })) =
      reqScanFrames store sid filters := by
  induction filters with
  | nil => rfl
  | cons f fs ih =>
    simp only [reqScanFrames, List.map_cons, List.flatMap_cons] at ih ⊢
    rw [ih]
    rfl

/-- C6: adding the same event twice leaves the store exactly as one add
leaves it, the second call returns `false`, and an add reports an
insertion precisely when no event with the same id was present. -/
theorem eventStore_add_idempotent (store : EventStore) (e : Event) :
    (store.Add e).1.Add e = ((store.Add e).1, false) ∧
    ((store.Add e).2 = true ↔ lookupEvent store e.ID = none) := by
  cases hl : lookupEvent store e.ID with
  | some x =>
    constructor
    · simp [EventStore.Add, hl]
    · simp [EventStore.Add, hl]
  | none =>
    have hfound : lookupEvent ⟨(e.ID, e) :: store.events⟩ e.ID =
        some e := by
      simp [lookupEvent, List.find?]
    constructor
    · simp [EventStore.Add, hl, hfound]
    · simp [EventStore.Add, hl]

/-- C6 witness: the generic idempotence theorem applied to the empty
store and the concrete event `E1`. -/
theorem eventStore_add_idempotent_witness :
    (NewEventStore.Add E1).1.Add E1 = ((NewEventStore.Add E1).1, false) ∧
    ((NewEventStore.Add E1).2 = true ↔ lookupEvent NewEventStore E1.ID = none) :=
  eventStore_add_idempotent NewEventStore E1

/-- C8: `Query` never applies the `limit` predicate (its result is
invariant under any change of the filter's limit) and returns every
currently stored event that matches the filter. -/
theorem query_complete_ignores_limit (store : EventStore) (f : Filter) (n : Int) :
    store.Query { f with Limit := n } = store.Query f ∧
    ∀ e, e ∈ store.Query f ↔ e ∈ store.events.map Prod.snd ∧ MatchesFilter e f = true := by
  constructor
  · rfl
  · intro e
    exact List.mem_filter

theorem filter_isEose_map_event (sid : String) (evs : List Event) :
    (evs.map (Frame.event sid)).filter Frame.isEose = [] := by
  induction evs with
  | nil => rfl
  | cons e es ih => simp [Frame.isEose, ih]

/-- C5: whenever the REQ handler succeeds, the frames it writes are the
historical EVENT frames of the scan followed by exactly one EOSE frame
for the same subscription id, so the EOSE comes after every historical
EVENT frame and occurs exactly once. -/
theorem handleReq_eose_once_after_events (subs : SubMap) (store : EventStore)
    (raw : List RawJson) (frames : List Frame)
    (h : (handleReqMessage subs store raw).2 = Except.ok frames) :
    ∃ (sid : String) (evs : List Event),
      frames = evs.map (Frame.event sid) ++ [Frame.eose sid] ∧
      frames.filter Frame.isEose = [Frame.eose sid] := by
  unfold handleReqMessage at h
  by_cases hlen : raw.length < 3
  · rw [if_pos hlen] at h
    simp at h
  · rw [if_neg hlen] at h
    cases hsub : parseSubID (raw.getD 1 RawJson.other) with
    | error msg => rw [hsub] at h; simp at h
    | ok subscriptionID =>
      rw [hsub] at h
      cases hfil : parseFilters (raw.drop 2) with
      | error msg => rw [hfil] at h; simp at h
      | ok filters =>
        rw [hfil] at h
        simp only [Except.ok.injEq] at h
        refine ⟨subscriptionID, filters.flatMap store.Query, ?_, ?_⟩
        · rw [← h]
          unfold reqScanFrames
          rw [List.map_flatMap]
        · rw [← h]
          unfold reqScanFrames
          rw [← List.map_flatMap, List.filter_append,
            filter_isEose_map_event]
          rfl

/-- C5 witness: the REQ fixture processed against the two-event store
yields two EVENT frames and then the single EOSE. -/
theorem handleReq_eose_once_witness :
    ∃ (sid : String) (evs : List Event),
      [Frame.event "s1" E1, Frame.event "s1" E2, Frame.eose "s1"] =
        evs.map (Frame.event sid) ++ [Frame.eose sid] ∧
      ([Frame.event "s1" E1, Frame.event "s1" E2, Frame.eose "s1"]).filter Frame.isEose =
        [Frame.eose sid] :=
  handleReq_eose_once_after_events [] ST2 RAW2
    [Frame.event "s1" E1, Frame.event "s1" E2, Frame.eose "s1"] (by rfl)

/-- C7: a valid EVENT frame whose event id is already stored leaves the
store unchanged and produces no action at all: no broadcast reaches any
subscriber (so none receives the event twice) and no OK frame is sent. -/
theorem handleEvent_duplicate_noop (C : Crypto) (store : EventStore)
    (raw : List RawJson) (e : Event)
    (hlen : 2 ≤ raw.length)
    (hparse : parseEvent (raw.getD 1 .other) = .ok e)
    (hvalid : ValidateEvent C e = true)
    (hdup : (lookupEvent store e.ID).isSome = true) :
    handleEventMessage C store raw = .ok (store, []) := by
  obtain ⟨x, hx⟩ := Option.isSome_iff_exists.mp hdup
  unfold handleEventMessage
  rw [if_neg (by omega)]
  rw [hparse]
  simp only [hvalid, if_true]
  simp [EventStore.Add, hx]

/-- C7 witness: the duplicate-suppression theorem applied to the
concrete crypto instantiation, the store already holding `EW`, and a
well-formed EVENT frame carrying `EW` again. -/
theorem handleEvent_duplicate_noop_witness :
    handleEventMessage CW STW [RawJson.str "EVENT", RawJson.ev EW] = .ok (STW, []) :=
  handleEvent_duplicate_noop CW STW [RawJson.str "EVENT", RawJson.ev EW] EW
    (by decide) (by rfl) (by decide) (by rfl)

theorem guard_iff {α : Type} (o : Option (List α)) (x : α) :
    (¬ (0 < sliceLen o ∧ x ∉ sliceElems o)) ↔ (∀ l, o = some l → l ≠ [] → x ∈ l) := by
  cases o with
  | none => simp [sliceLen, sliceElems]
  | some l =>
    cases l with
    | nil => simp [sliceLen, sliceElems]
    | cons a t =>
      constructor
      · intro hx l hl hne
        have hmem : x ∈ a :: t := by
          by_contra hnm
          exact hx ⟨by simp [sliceLen, sliceElems], by simpa [sliceElems] using hnm⟩
        injection hl with hl
        rw [← hl]
        exact hmem
      · intro hall hcontra
        obtain ⟨-, hnm⟩ := hcontra
        exact hnm (by simpa [sliceElems] using hall (a :: t) rfl (by simp))

/-- C9: `MatchesFilter` is exactly the conjunction of the present
predicates: membership for each set-valued predicate that is present and
non-empty, the inclusive lower bound when `since > 0`, the inclusive
upper bound when `until > 0`, and no constraint otherwise. -/
theorem matchesFilter_conjunction (e : Event) (f : Filter) :
    MatchesFilter e f = true ↔
      ((∀ ids, f.IDs = some ids → ids ≠ [] → e.ID ∈ ids) ∧
       (∀ authors, f.Authors = some authors → authors ≠ [] → e.PubKey ∈ authors) ∧
       (∀ kinds, f.Kinds = some kinds → kinds ≠ [] → e.Kind ∈ kinds) ∧
       (0 < f.Since → f.Since ≤ e.CreatedAt) ∧
       (0 < f.Until → e.CreatedAt ≤ f.Until)) := by
  have hbool : MatchesFilter e f = true ↔
      (¬ (0 < sliceLen f.IDs ∧ e.ID ∉ sliceElems f.IDs) ∧
       ¬ (0 < sliceLen f.Authors ∧ e.PubKey ∉ sliceElems f.Authors) ∧
       ¬ (0 < sliceLen f.Kinds ∧ e.Kind ∉ sliceElems f.Kinds) ∧
       ¬ (0 < f.Since ∧ e.CreatedAt < f.Since) ∧
       ¬ (0 < f.Until ∧ f.Until < e.CreatedAt)) := by
    unfold MatchesFilter
    split_ifs <;> simp_all
  rw [hbool, guard_iff, guard_iff, guard_iff]
  constructor
  · rintro ⟨h1, h2, h3, h4, h5⟩
    exact ⟨h1, h2, h3, fun hs => by omega, fun hu => by omega⟩
  · rintro ⟨h1, h2, h3, h4, h5⟩
    exact ⟨h1, h2, h3, by omega, by omega⟩

/-- C9 witness: the characterization instantiated at the concrete event
`E1` and the predicate-free filter `FAll`. -/
theorem matchesFilter_conjunction_witness :
    MatchesFilter E1 FAll = true ↔
      ((∀ ids, FAll.IDs = some ids → ids ≠ [] → E1.ID ∈ ids) ∧
       (∀ authors, FAll.Authors = some authors → authors ≠ [] → E1.PubKey ∈ authors) ∧
       (∀ kinds, FAll.Kinds = some kinds → kinds ≠ [] → E1.Kind ∈ kinds) ∧
       (0 < FAll.Since → FAll.Since ≤ E1.CreatedAt) ∧
       (0 < FAll.Until → E1.CreatedAt ≤ FAll.Until)) :=
  matchesFilter_conjunction E1 FAll

/-- C2: whenever `ValidateEvent` returns true, the lowercase hex of the
digest of the canonical serialization equals the event's id field, the
pubkey hex-decodes to exactly 32 bytes, and verification succeeded over
exactly the 32 bytes that the id hex-decodes to, under those pubkey
bytes and the decoded signature bytes. -/
theorem validateEvent_sound (C : Crypto) (e : Event)
    (h : ValidateEvent C e = true) :
    hexEncodeStr (C.sha256 (SerializeEvent e)) = e.ID ∧
    ∃ pubKeyBytes sigBytes msgBytes,
      hexDecodeStr e.PubKey = some pubKeyBytes ∧ pubKeyBytes.length = 32 ∧
      hexDecodeStr e.Sig = some sigBytes ∧
      hexDecodeStr e.ID = some msgBytes ∧ msgBytes.length = 32 ∧
      C.verify sigBytes msgBytes pubKeyBytes = true := by
  simp only [ValidateEvent] at h
  by_cases hid : hexEncodeStr (C.sha256 (SerializeEvent e)) = e.ID
  · rw [if_pos hid] at h
    have hdec : hexDecodeStr e.ID = some (C.sha256 (SerializeEvent e)) := by
      rw [← hid]
      exact hexDecodeCh_hexEncodeCh (C.sha256_bytes _)
    cases hpk : hexDecodeStr e.PubKey with
    | none => rw [hpk] at h; simp at h
    | some pubKeyBytes =>
      rw [hpk] at h
      cases hsig : hexDecodeStr e.Sig with
      | none => rw [hsig] at h; simp at h
      | some sigBytes =>
        rw [hsig] at h
        simp only at h
        by_cases hlen32 : pubKeyBytes.length = 32
        · rw [if_pos hlen32] at h
          by_cases hppk : C.parsePubKey pubKeyBytes = true
          · rw [if_pos hppk] at h
            by_cases hpsig : C.parseSig sigBytes = true
            · rw [if_pos hpsig] at h
              rw [hdec] at h
              simp only at h
              exact ⟨hid, pubKeyBytes, sigBytes, C.sha256 (SerializeEvent e),
                rfl, hlen32, rfl, hdec, C.sha256_len _, h⟩
            · rw [if_neg hpsig] at h; simp at h
          · rw [if_neg hppk] at h; simp at h
        · rw [if_neg hlen32] at h; simp at h
  · rw [if_neg hid] at h
    simp at h

/-- C2 witness: the soundness theorem applied to the concrete crypto
instantiation and the concrete accepted event `EW`. -/
theorem validateEvent_sound_witness :
    hexEncodeStr (CW.sha256 (SerializeEvent EW)) = EW.ID ∧
    ∃ pubKeyBytes sigBytes msgBytes,
      hexDecodeStr EW.PubKey = some pubKeyBytes ∧ pubKeyBytes.length = 32 ∧
      hexDecodeStr EW.Sig = some sigBytes ∧
      hexDecodeStr EW.ID = some msgBytes ∧ msgBytes.length = 32 ∧
      CW.verify sigBytes msgBytes pubKeyBytes = true :=
  validateEvent_sound CW EW (by decide)

/-- C10: an event whose id field contains an uppercase hexadecimal digit
is always rejected: the computed id is lowercase hex and the comparison
is exact string equality, so the first check of `ValidateEvent` fails. -/
theorem validateEvent_rejects_uppercase_id (C : Crypto) (e : Event)
    (hupper : ∃ c ∈ e.ID.data, 'A' ≤ c ∧ c ≤ 'F') :
    ValidateEvent C e = false := by
  obtain ⟨c, hc, hAc, hcF⟩ := hupper
  have hid : hexEncodeStr (C.sha256 (SerializeEvent e)) ≠ e.ID := by
    intro heq
    have hc2 : c ∈ hexEncodeCh (C.sha256 (SerializeEvent e)) := by
      have : c ∈ (hexEncodeStr (C.sha256 (SerializeEvent e))).data := by
        rw [heq]; exact hc
      exact this
    obtain ⟨k, hk⟩ := hexEncodeCh_chars hc2
    exact hexChar_not_upper k ⟨hk ▸ hAc, hk ▸ hcF⟩
  simp only [ValidateEvent]
  rw [if_neg hid]

/-- C10 witness: the rejection theorem applied to the concrete crypto
instantiation and the event `EA`, whose id is the single character A. -/
theorem validateEvent_rejects_uppercase_id_witness :
    ValidateEvent CW EA = false :=
  validateEvent_rejects_uppercase_id CW EA (by decide)

end Cosanostra
